import Mathlib

/-!
Verification of the nihao face-authentication core against its specification.

Each Rust source function relevant to the claims is shallowly embedded as a
Lean definition:

* floating-point values (`f32`) are modelled as exact rationals `ℚ`, except
  where a square root is genuinely needed (embedding normalization, the
  detector's `confidence · √area` sort key), which is modelled over `ℝ`;
* the filesystem used by the face store and the password vault is modelled as
  association lists keyed by name, with reads and writes as pure functions;
* fallible Rust functions returning `Result` are modelled with `Except`.
-/

namespace Nihao

/-! ## Matcher (`src/nihao-core/src/compare.rs`)

`cosine_similarity` is the dot product of two (unit-norm) embeddings, and
`find_best_match` maps each candidate to its similarity, filters by the
threshold, and takes the maximum by similarity.  Rust's `Iterator::max_by`
returns the *last* of several equally-maximum elements, which `maxBySim`
reproduces by keeping the accumulator only when it is strictly greater. -/

/-- Result of `find_best_match`: candidate index plus its similarity. -/
structure MatchResult where
  face_id : Nat
  similarity : ℚ
deriving DecidableEq

/-- Dot product of two `f32` vectors (`ndarray`'s `a.dot(b)`), modelled over `ℚ`. -/
def dotQ (a b : List ℚ) : ℚ :=
  (List.zipWith (· * ·) a b).sum

/-- `cosine_similarity(a, b)` from `compare.rs`: the plain dot product. -/
def cosine_similarity (a b : List ℚ) : ℚ :=
  dotQ a b

/-- Rust `Iterator::max_by` on `(index, similarity)` pairs, comparing the
similarities: the accumulator is kept only when strictly greater, so the last
of several equal maxima wins. -/
def maxBySim (l : List (Nat × ℚ)) : Option (Nat × ℚ) :=
  l.foldl
    (fun acc x =>
      match acc with
      | none => some x
      | some a => if a.2 > x.2 then some a else some x)
    none

/-- `find_best_match(query, candidates, threshold)` from `compare.rs`:
enumerate candidates, map to similarities, keep those `≥ threshold`, and take
the maximum by similarity (`max_by`). -/
def find_best_match (query : List ℚ) (candidates : List (List ℚ)) (threshold : ℚ) :
    Option MatchResult :=
  (maxBySim
      ((candidates.enum.map fun p => (p.1, cosine_similarity query p.2)).filter
        fun p => threshold ≤ p.2)).map
    fun p => ⟨p.1, p.2⟩

/-- Similarity of the query against candidate `i` (empty list out of range). -/
def simAt (query : List ℚ) (candidates : List (List ℚ)) (i : Nat) : ℚ :=
  cosine_similarity query (candidates.getD i [])

lemma maxBySim_append (l : List (Nat × ℚ)) (x : Nat × ℚ) :
    maxBySim (l ++ [x]) =
      match maxBySim l with
      | none => some x
      | some a => if a.2 > x.2 then some a else some x := by
  simp [maxBySim, List.foldl_append]

lemma maxBySim_spec (l : List (Nat × ℚ)) (hinc : l.Pairwise fun a b => a.1 < b.1) :
    (maxBySim l = none ↔ l = []) ∧
      ∀ m, maxBySim l = some m →
        m ∈ l ∧ ∀ x ∈ l, x.2 ≤ m.2 ∧ (m.1 < x.1 → x.2 < m.2) := by
  induction l using List.reverseRecOn with
  | nil => constructor <;> simp [maxBySim]
  | append_singleton l x ih =>
    have hpl : l.Pairwise fun a b : Nat × ℚ => a.1 < b.1 :=
      hinc.sublist (List.sublist_append_left l [x])
    have hlast : ∀ y ∈ l, y.1 < x.1 := by
      intro y hy
      exact (List.pairwise_append.mp hinc).2.2 y hy x (by simp)
    obtain ⟨hnone, hsome⟩ := ih hpl
    rcases h : maxBySim l with _ | a
    · have hl : l = [] := hnone.mp h
      subst hl
      constructor
      · constructor
        · intro habs
          rw [maxBySim_append, h] at habs
          simp at habs
        · intro habs
          simp at habs
      · intro m hm
        rw [maxBySim_append, h] at hm
        simp only [Option.some.injEq] at hm
        subst hm
        simp
    · constructor
      · constructor
        · intro habs
          rw [maxBySim_append, h] at habs
          by_cases hgt : a.2 > x.2 <;> simp [hgt] at habs
        · intro habs
          simp at habs
      · intro m hm
        rw [maxBySim_append, h] at hm
        obtain ⟨hamem, hamax⟩ := hsome a h
        by_cases hgt : a.2 > x.2
        · rw [show (match some a with
              | none => some x
              | some a => if a.2 > x.2 then some a else some x) =
              (if a.2 > x.2 then some a else some x) from rfl, if_pos hgt] at hm
          injection hm with hm
          subst hm
          refine ⟨List.mem_append_left _ hamem, ?_⟩
          intro y hy
          rcases List.mem_append.mp hy with hy' | hy'
          · exact hamax y hy'
          · have hyx : y = x := by simpa using hy'
            subst hyx
            exact ⟨le_of_lt hgt, fun _ => hgt⟩
        · rw [show (match some a with
              | none => some x
              | some a => if a.2 > x.2 then some a else some x) =
              (if a.2 > x.2 then some a else some x) from rfl, if_neg hgt] at hm
          injection hm with hm
          subst hm
          push_neg at hgt
          refine ⟨List.mem_append_right _ (by simp), ?_⟩
          intro y hy
          rcases List.mem_append.mp hy with hy' | hy'
          · refine ⟨le_trans (hamax y hy').1 hgt, fun hlt => ?_⟩
            exact absurd (hlast y hy') (lt_asymm hlt)
          · have hyx : y = x := by simpa using hy'
            subst hyx
            exact ⟨le_rfl, fun hlt => absurd hlt (lt_irrefl _)⟩

/-- The enumerated list has strictly increasing first components. -/
lemma pairwise_fst_lt_enum (l : List α) :
    l.enum.Pairwise fun a b => a.1 < b.1 := by
  rw [List.pairwise_iff_getElem]
  intro i j hi hj hij
  simpa using hij

/-- Membership in the filtered similarity list. -/
lemma mem_simList (query : List ℚ) (candidates : List (List ℚ)) (threshold : ℚ)
    (i : Nat) (s : ℚ) :
    (i, s) ∈
        ((candidates.enum.map fun p => (p.1, cosine_similarity query p.2)).filter
          fun p => threshold ≤ p.2) ↔
      i < candidates.length ∧ s = simAt query candidates i ∧ threshold ≤ s := by
  rw [List.mem_filter]
  simp only [List.mem_map, decide_eq_true_eq]
  constructor
  · rintro ⟨⟨⟨j, c⟩, hmem, heq⟩, hthr⟩
    have hji : j = i := congrArg Prod.fst heq
    have hcs : cosine_similarity query c = s := congrArg Prod.snd heq
    subst hji
    have hj : candidates[j]? = some c := List.mem_enum_iff_getElem?.mp hmem
    have hlen : j < candidates.length := by
      rcases List.getElem?_eq_some.mp hj with ⟨hh, _⟩
      exact hh
    have hc : candidates.getD j [] = c := by
      rw [List.getD_eq_getElem?_getD, hj]
      rfl
    refine ⟨hlen, ?_, hthr⟩
    rw [simAt, cosine_similarity, hc, ← hcs]
    rfl
  · rintro ⟨hlen, hs, hthr⟩
    refine ⟨⟨(i, candidates.getD i []), ?_, ?_⟩, hthr⟩
    · rw [List.mem_enum_iff_getElem?]
      rw [List.getD_eq_getElem?_getD, List.getElem?_eq_getElem hlen]
      rfl
    · rw [hs]
      rfl

lemma pairwise_simList (query : List ℚ) (candidates : List (List ℚ)) (threshold : ℚ) :
    ((candidates.enum.map fun p => (p.1, cosine_similarity query p.2)).filter
        fun p => threshold ≤ p.2).Pairwise fun a b => a.1 < b.1 := by
  refine List.Pairwise.sublist (List.filter_sublist _) ?_
  rw [List.pairwise_map]
  exact pairwise_fst_lt_enum candidates

/-- C2: `find_best_match` returns the highest similarity at or above the
threshold and `none` when nothing qualifies; on ties among highest
similarities it returns the candidate at the *latest* index (Rust's `max_by`
keeps the last maximum), not the earliest. -/
theorem find_best_match_spec (query : List ℚ) (candidates : List (List ℚ)) (threshold : ℚ) :
    (find_best_match query candidates threshold = none ↔
      ∀ i, i < candidates.length → ¬ threshold ≤ simAt query candidates i) ∧
    ∀ r : MatchResult, find_best_match query candidates threshold = some r →
      r.face_id < candidates.length ∧
      r.similarity = simAt query candidates r.face_id ∧
      threshold ≤ r.similarity ∧
      (∀ j, j < candidates.length → threshold ≤ simAt query candidates j →
        simAt query candidates j ≤ r.similarity) ∧
      (∀ j, j < candidates.length → r.face_id < j → threshold ≤ simAt query candidates j →
        simAt query candidates j < r.similarity) := by
  obtain ⟨hnone, hsome⟩ :=
    maxBySim_spec _ (pairwise_simList query candidates threshold)
  constructor
  · unfold find_best_match
    rw [Option.map_eq_none']
    rw [hnone, List.eq_nil_iff_forall_not_mem]
    constructor
    · intro h i hi hthr
      exact h (i, simAt query candidates i)
        ((mem_simList query candidates threshold i _).mpr ⟨hi, rfl, hthr⟩)
    · rintro h ⟨i, s⟩ hmem
      obtain ⟨hi, hs, hthr⟩ := (mem_simList query candidates threshold i s).mp hmem
      exact h i hi (hs ▸ hthr)
  · intro r hr
    unfold find_best_match at hr
    rw [Option.map_eq_some'] at hr
    obtain ⟨⟨i, s⟩, hmax, heq⟩ := hr
    obtain ⟨hmem, hmaxall⟩ := hsome (i, s) hmax
    obtain ⟨hi, hs, hthr⟩ := (mem_simList query candidates threshold i s).mp hmem
    simp only at heq
    subst heq
    refine ⟨hi, hs, hthr, ?_, ?_⟩
    · intro j hj hthrj
      exact (hmaxall (j, simAt query candidates j)
        ((mem_simList query candidates threshold j _).mpr ⟨hj, rfl, hthrj⟩)).1
    · intro j hj hij hthrj
      exact (hmaxall (j, simAt query candidates j)
        ((mem_simList query candidates threshold j _).mpr ⟨hj, rfl, hthrj⟩)).2 hij

/-- C2, counterexample to the claim as stated: with two identical candidates
both above threshold, `find_best_match` returns index 1 (the latest), not the
earliest index 0. -/
theorem find_best_match_tie_returns_last :
    find_best_match [1] [[1], [1]] 0 = some ⟨1, 1⟩ ∧
      cosine_similarity [1] ([[1], [1]].getD 0 []) =
        cosine_similarity [1] ([[1], [1]].getD 1 []) ∧
      some (⟨1, 1⟩ : MatchResult) ≠ some ⟨0, 1⟩ := by
  refine ⟨?_, ?_, ?_⟩
  · norm_num [find_best_match, maxBySim, cosine_similarity, dotQ,
      List.enum, List.enumFrom, List.filter]
  · norm_num [cosine_similarity, dotQ]
  · intro h
    simp only [Option.some.injEq, MatchResult.mk.injEq] at h
    exact absurd h.1 (by norm_num)

/-- C2, witness: the theorem applied at a concrete input where candidate 0
has similarity 2 and candidate 1 has similarity 1. -/
theorem find_best_match_spec_witness :
    find_best_match [1] [[2], [1]] 0 = some ⟨0, 2⟩ ∧
      (0 : ℚ) ≤ (⟨0, 2⟩ : MatchResult).similarity ∧
      ∀ j, j < ([[2], [1]] : List (List ℚ)).length → 0 ≤ simAt [1] [[2], [1]] j →
        simAt [1] [[2], [1]] j ≤ (⟨0, 2⟩ : MatchResult).similarity := by
  have hfbm : find_best_match [1] [[2], [1]] 0 = some ⟨0, 2⟩ := by
    norm_num [find_best_match, maxBySim, cosine_similarity, dotQ,
      List.enum, List.enumFrom, List.filter]
  have h := (find_best_match_spec [1] [[2], [1]] 0).2 ⟨0, 2⟩ hfbm
  exact ⟨hfbm, h.2.2.1, h.2.2.2.1⟩

/-! ## Face Store (`src/nihao-core/src/store.rs`)

The store keeps, per user directory, an optional manifest file
(`metadata.toml`, a list of `FaceMetadata` records) and the embedding files
(`face_<N>.bin`).  The filesystem is an association list; `setAssoc` models
`fs::write` (create-or-overwrite) and `removeAssoc` models `fs::remove_file`.
Embedding (de)serialization is modelled as the identity, so "bit-for-bit
equal" is plain equality of the stored value. -/

/-- One manifest record: face id, optional label, enrollment time. -/
structure FaceMetadata where
  id : String
  label : Option String
  enrolled_at : Nat
deriving DecidableEq

/-- A user directory: optional manifest file plus the `.bin` files. -/
structure UserDir (α : Type) where
  manifestFile : Option (List FaceMetadata)
  files : List (String × α)
deriving DecidableEq

/-- The store root: existing user directories by name. -/
structure StoreState (α : Type) where
  users : List (String × UserDir α)
deriving DecidableEq

/-- `StorageError` from `store.rs` (the `Io`/`Serialization` cases are merged
into `ioError`). -/
inductive StorageError where
  | ioError
  | userNotFound (u : String)
  | faceNotFound (fid : String)
deriving DecidableEq

/-- Create-or-overwrite a file in an association-list filesystem. -/
def setAssoc {β : Type} : List (String × β) → String → β → List (String × β)
  | [], k, v => [(k, v)]
  | (k', v') :: rest, k, v =>
      if k' = k then (k, v) :: rest else (k', v') :: setAssoc rest k v

/-- Delete a file (no-op when absent, as guarded by `exists()` in the code). -/
def removeAssoc {β : Type} : List (String × β) → String → List (String × β)
  | [], _ => []
  | (k', v') :: rest, k => if k' = k then rest else (k', v') :: removeAssoc rest k

/-- Read a file from an association-list filesystem. -/
def getAssoc {β : Type} : List (String × β) → String → Option β
  | [], _ => none
  | (k', v') :: rest, k => if k' = k then some v' else getAssoc rest k

/-- `user_dir` existence: the user's directory, when present. -/
def lookupUser (s : StoreState α) (u : String) : Option (UserDir α) :=
  getAssoc s.users u

/-- `load_metadata`: empty when the directory or the manifest file is absent,
else the manifest's records. -/
def load_metadata (s : StoreState α) (u : String) : List FaceMetadata :=
  ((lookupUser s u).bind fun d => d.manifestFile).getD []

/-- The id `save_embedding` will assign next: `face_<len(manifest)>`. -/
def newFaceId (s : StoreState α) (u : String) : String :=
  "face_" ++ toString (load_metadata s u).length

/-- `save_embedding(user, embedding, label)`: create the directory if absent,
load the manifest, assign `face_<len>`, write the embedding file, append a
record with the current time, rewrite the manifest; return the new id. -/
def save_embedding (s : StoreState α) (u : String) (e : α) (label : Option String)
    (now : Nat) : String × StoreState α :=
  let d := (lookupUser s u).getD ⟨none, []⟩
  let metadata := load_metadata s u
  let face_id := "face_" ++ toString metadata.length
  let d1 : UserDir α := { d with files := setAssoc d.files face_id e }
  let metadata1 := metadata ++ [⟨face_id, label, now⟩]
  let d2 : UserDir α := { d1 with manifestFile := some metadata1 }
  (face_id, ⟨setAssoc s.users u d2⟩)

/-- `remove_embedding(user, face_id)`: `UserNotFound` when the directory is
absent, `FaceNotFound` when no manifest record has the id; otherwise drop the
record, delete the sibling file if present, rewrite the manifest.  The final
state is returned alongside the result so that error-path purity is visible. -/
def remove_embedding (s : StoreState α) (u : String) (face_id : String) :
    Except StorageError Unit × StoreState α :=
  match lookupUser s u with
  | none => (Except.error (StorageError.userNotFound u), s)
  | some d =>
    let metadata := load_metadata s u
    match metadata.findIdx? fun f => f.id = face_id with
    | none => (Except.error (StorageError.faceNotFound face_id), s)
    | some i =>
      let metadata1 := metadata.eraseIdx i
      let d1 : UserDir α := { d with files := removeAssoc d.files face_id }
      let d2 : UserDir α := { d1 with manifestFile := some metadata1 }
      (Except.ok (), ⟨setAssoc s.users u d2⟩)

/-- `list_faces(user)`: empty when the directory is absent, else the manifest
records in manifest order. -/
def list_faces (s : StoreState α) (u : String) : List FaceMetadata :=
  match lookupUser s u with
  | none => []
  | some _ => load_metadata s u

/-- Read and deserialize one embedding file (`fs::read` + `bincode`). -/
def readEmb (d : UserDir α) (fid : String) : Except StorageError α :=
  match getAssoc d.files fid with
  | some a => Except.ok a
  | none => Except.error StorageError.ioError

/-- `load_embeddings(user)`: `UserNotFound` when the directory is absent, else
each manifest record's sibling file, in manifest order. -/
def load_embeddings (s : StoreState α) (u : String) : Except StorageError (List α) :=
  match lookupUser s u with
  | none => Except.error (StorageError.userNotFound u)
  | some d => (load_metadata s u).mapM fun m => readEmb d m.id

/-- `has_faces(user)`: directory exists and the manifest is non-empty. -/
def has_faces (s : StoreState α) (u : String) : Bool :=
  (lookupUser s u).isSome && !(list_faces s u).isEmpty

/-- The embedding the store holds for a given face id, with a default. -/
def readEmbD [Inhabited α] (s : StoreState α) (u : String) (fid : String) : α :=
  ((lookupUser s u).bind fun d => getAssoc d.files fid).getD default

lemma getAssoc_setAssoc_self {β : Type} (l : List (String × β)) (k : String) (v : β) :
    getAssoc (setAssoc l k v) k = some v := by
  induction l with
  | nil => simp [setAssoc, getAssoc]
  | cons p rest ih =>
    obtain ⟨a, b⟩ := p
    by_cases hak : a = k
    · subst hak
      simp [setAssoc, getAssoc]
    · simp [setAssoc, getAssoc, hak, ih]

lemma getAssoc_setAssoc_ne {β : Type} (l : List (String × β)) (k k' : String) (v : β)
    (h : k' ≠ k) : getAssoc (setAssoc l k v) k' = getAssoc l k' := by
  induction l with
  | nil => simp [setAssoc, getAssoc, Ne.symm h]
  | cons p rest ih =>
    obtain ⟨a, b⟩ := p
    by_cases hak : a = k
    · subst hak
      simp [setAssoc, getAssoc, Ne.symm h]
    · simp [setAssoc, getAssoc, hak, ih]

lemma list_faces_eq_load_metadata (s : StoreState α) (u : String) :
    list_faces s u = load_metadata s u := by
  unfold list_faces
  rcases h : lookupUser s u with _ | d
  · unfold load_metadata
    rw [h]
    rfl
  · rfl

lemma mapM_readEmb_ok [Inhabited α] (d : UserDir α) (ms : List FaceMetadata)
    (h : ∀ m ∈ ms, (getAssoc d.files m.id).isSome) :
    (ms.mapM fun m => readEmb d m.id) =
      Except.ok (ms.map fun m => (getAssoc d.files m.id).getD default) := by
  induction ms with
  | nil => rfl
  | cons m rest ih =>
    have hm : (getAssoc d.files m.id).isSome := h m (List.mem_cons_self m rest)
    obtain ⟨a, ha⟩ := Option.isSome_iff_exists.mp hm
    have hrest := ih fun x hx => h x (List.mem_cons_of_mem m hx)
    have hr : readEmb d m.id = Except.ok a := by
      unfold readEmb
      rw [ha]
    rw [List.mapM_cons, hr, hrest, List.map_cons, ha]
    rfl

lemma load_embeddings_eq (s : StoreState α) (u : String) (d : UserDir α)
    (h : lookupUser s u = some d) :
    load_embeddings s u = (load_metadata s u).mapM fun m => readEmb d m.id := by
  unfold load_embeddings
  rw [h]

/-- C3 (amended): provided no existing manifest record already carries the id
`face_<len(manifest)>` that `save_embedding` will assign (true in particular
for save-only histories), and every existing record's sibling file is
readable, then immediately after `save_embedding(u, e, l)` returns `f`:
`list_faces(u)` is the old manifest plus exactly one new record `⟨f, l, now⟩`,
exactly one record carries id `f`, and `load_embeddings(u)` returns the old
embeddings in manifest order with `e` appended at the new record's position. -/
theorem save_embedding_spec {α : Type} [Inhabited α] (s : StoreState α) (u : String)
    (e : α) (label : Option String) (now : Nat)
    (hNoDup : ∀ r ∈ list_faces s u, r.id ≠ newFaceId s u)
    (hwf : ∀ r ∈ list_faces s u,
      ((lookupUser s u).bind fun d => getAssoc d.files r.id).isSome) :
    (save_embedding s u e label now).1 = newFaceId s u ∧
    list_faces (save_embedding s u e label now).2 u =
      list_faces s u ++ [⟨newFaceId s u, label, now⟩] ∧
    ((list_faces (save_embedding s u e label now).2 u).filter
      fun r => r.id = newFaceId s u).length = 1 ∧
    load_embeddings (save_embedding s u e label now).2 u =
      Except.ok ((list_faces s u).map (fun r => readEmbD s u r.id) ++ [e]) := by
  have hid : (save_embedding s u e label now).1 = newFaceId s u := by
    simp [save_embedding, newFaceId]
  set fid := newFaceId s u with hfid
  set d := (lookupUser s u).getD ⟨none, []⟩ with hd
  set metadata := load_metadata s u with hmeta
  set d2 : UserDir α :=
    { manifestFile := some (metadata ++ [⟨fid, label, now⟩]),
      files := setAssoc d.files fid e } with hd2
  have hsave : (save_embedding s u e label now).2 = ⟨setAssoc s.users u d2⟩ := by
    simp [save_embedding, hd2, hfid, newFaceId, hmeta, hd]
  have hlookup : lookupUser (save_embedding s u e label now).2 u = some d2 := by
    rw [hsave]
    exact getAssoc_setAssoc_self s.users u d2
  have hmeta' : load_metadata (save_embedding s u e label now).2 u =
      metadata ++ [⟨fid, label, now⟩] := by
    unfold load_metadata
    rw [hlookup]
    rfl
  have hlist : list_faces (save_embedding s u e label now).2 u =
      list_faces s u ++ [⟨fid, label, now⟩] := by
    rw [list_faces_eq_load_metadata, hmeta', list_faces_eq_load_metadata]
  have hfilter : ((list_faces (save_embedding s u e label now).2 u).filter
      fun r => r.id = fid).length = 1 := by
    rw [hlist, List.filter_append]
    have hold : (list_faces s u).filter (fun r => decide (r.id = fid)) = [] := by
      rw [List.filter_eq_nil_iff]
      intro r hr
      simpa using hNoDup r hr
    rw [hold]
    simp
  have hmeta_nil_of_none : lookupUser s u = none → metadata = [] := by
    intro hlk
    rw [hmeta]
    unfold load_metadata
    rw [hlk]
    rfl
  have hold_readable : ∀ r ∈ metadata, (getAssoc d.files r.id).isSome := by
    intro r hr
    rcases hlk : lookupUser s u with _ | dir
    · exfalso
      rw [hmeta_nil_of_none hlk] at hr
      exact absurd hr (List.not_mem_nil r)
    · have hr' : r ∈ list_faces s u := by
        rw [list_faces_eq_load_metadata, ← hmeta]
        exact hr
      have hw := hwf r hr'
      rw [hlk] at hw
      simp only [Option.some_bind] at hw
      have hdd : d = dir := by
        rw [hd, hlk]
        rfl
      rw [hdd]
      exact hw
  have hfiles2 : d2.files = setAssoc d.files fid e := rfl
  have hnew_readable : ∀ r ∈ metadata ++ [(⟨fid, label, now⟩ : FaceMetadata)],
      (getAssoc d2.files r.id).isSome := by
    intro r hr
    rcases List.mem_append.mp hr with hr' | hr'
    · have hne : r.id ≠ fid := by
        apply hNoDup
        rw [list_faces_eq_load_metadata, ← hmeta]
        exact hr'
      rw [hfiles2, getAssoc_setAssoc_ne _ _ _ _ hne]
      exact hold_readable r hr'
    · have hrx : r = ⟨fid, label, now⟩ := by simpa using hr'
      subst hrx
      rw [hfiles2]
      show (getAssoc (setAssoc d.files fid e) fid).isSome = true
      rw [getAssoc_setAssoc_self]
      rfl
  have hload : load_embeddings (save_embedding s u e label now).2 u =
      Except.ok ((list_faces s u).map (fun r => readEmbD s u r.id) ++ [e]) := by
    rw [load_embeddings_eq _ u d2 hlookup, hmeta', mapM_readEmb_ok d2 _ hnew_readable]
    congr 1
    rw [List.map_append]
    congr 1
    · rw [list_faces_eq_load_metadata, ← hmeta]
      apply List.map_congr_left
      intro r hr
      have hne : r.id ≠ fid := by
        apply hNoDup
        rw [list_faces_eq_load_metadata, ← hmeta]
        exact hr
      show (getAssoc d2.files r.id).getD default = readEmbD s u r.id
      rw [hfiles2, getAssoc_setAssoc_ne _ _ _ _ hne]
      unfold readEmbD
      rcases hlk : lookupUser s u with _ | dir
      · exfalso
        rw [hmeta_nil_of_none hlk] at hr
        exact absurd hr (List.not_mem_nil r)
      · simp only [Option.some_bind]
        have hdd : d = dir := by
          rw [hd, hlk]
          rfl
        rw [hdd]
    · simp only [List.map_cons, List.map_nil]
      show [(getAssoc d2.files fid).getD default] = [e]
      rw [hfiles2, getAssoc_setAssoc_self]
      rfl
  exact ⟨hid, hlist, hfilter, hload⟩

/-- Intermediate store states for the id-collision scenario: three saves for
"alice", then removal of `face_0`. -/
def sColl1 : StoreState Nat := (save_embedding ⟨[]⟩ "alice" 10 none 0).2

def sColl2 : StoreState Nat := (save_embedding sColl1 "alice" 11 none 1).2

def sColl3 : StoreState Nat := (save_embedding sColl2 "alice" 12 none 2).2

def sColl4 : StoreState Nat := (remove_embedding sColl3 "alice" "face_0").2

/-- C3, counterexample to the claim as stated: after save, save, save, remove
`face_0`, a fourth save returns id `face_2`, and `list_faces` then contains
two records with that id, not exactly one. -/
theorem save_embedding_id_collision :
    (remove_embedding sColl3 "alice" "face_0").1.isOk = true ∧
    (save_embedding sColl4 "alice" 13 none 4).1 = "face_2" ∧
    ((list_faces (save_embedding sColl4 "alice" 13 none 4).2 "alice").filter
      fun r => r.id = "face_2").length = 2 := by
  refine ⟨by decide, by decide, by decide⟩

/-- C3, witness for the amended theorem: saving into an empty store. -/
theorem save_embedding_spec_witness :
    (∀ r ∈ list_faces (⟨[]⟩ : StoreState Nat) "alice",
      r.id ≠ newFaceId (⟨[]⟩ : StoreState Nat) "alice") ∧
    list_faces (save_embedding (⟨[]⟩ : StoreState Nat) "alice" 5 none 0).2 "alice" =
      list_faces (⟨[]⟩ : StoreState Nat) "alice" ++
        [⟨newFaceId (⟨[]⟩ : StoreState Nat) "alice", none, 0⟩] ∧
    load_embeddings (save_embedding (⟨[]⟩ : StoreState Nat) "alice" 5 none 0).2 "alice" =
      Except.ok ((list_faces (⟨[]⟩ : StoreState Nat) "alice").map
        (fun r => readEmbD (⟨[]⟩ : StoreState Nat) "alice" r.id) ++ [5]) := by
  have h := save_embedding_spec (⟨[]⟩ : StoreState Nat) "alice" 5 none 0
    (by decide) (by decide)
  exact ⟨by decide, h.2.1, h.2.2.2⟩

lemma remove_embedding_user_absent (s : StoreState α) (u fid : String)
    (h : lookupUser s u = none) :
    remove_embedding s u fid = (Except.error (StorageError.userNotFound u), s) := by
  unfold remove_embedding
  rw [h]

lemma remove_embedding_face_absent (s : StoreState α) (u fid : String) (d : UserDir α)
    (h : lookupUser s u = some d)
    (h2 : (load_metadata s u).findIdx? (fun f => f.id = fid) = none) :
    remove_embedding s u fid = (Except.error (StorageError.faceNotFound fid), s) := by
  unfold remove_embedding
  rw [h]
  simp only [h2]

lemma remove_embedding_found (s : StoreState α) (u fid : String) (d : UserDir α) (i : Nat)
    (h : lookupUser s u = some d)
    (h2 : (load_metadata s u).findIdx? (fun f => f.id = fid) = some i) :
    (remove_embedding s u fid).1 = Except.ok () := by
  unfold remove_embedding
  rw [h]
  simp only [h2]

/-- C10: `remove_embedding` returns `UserNotFound` (not `FaceNotFound`) when
the user directory is absent, and on any error (`UserNotFound` or
`FaceNotFound`) the store state is unchanged — no manifest or embedding file
is modified. -/
theorem remove_embedding_error_spec (s : StoreState α) (u fid : String) :
    (lookupUser s u = none →
      remove_embedding s u fid = (Except.error (StorageError.userNotFound u), s)) ∧
    ∀ err, (remove_embedding s u fid).1 = Except.error err →
      (remove_embedding s u fid).2 = s := by
  constructor
  · intro h
    exact remove_embedding_user_absent s u fid h
  · intro err herr
    rcases h1 : lookupUser s u with _ | d
    · rw [remove_embedding_user_absent s u fid h1]
    · rcases h2 : (load_metadata s u).findIdx? fun f => f.id = fid with _ | i
      · rw [remove_embedding_face_absent s u fid d h1 h2]
      · exfalso
        have hok := remove_embedding_found s u fid d i h1 h2
        rw [hok] at herr
        exact Except.noConfusion herr

/-- C10, witness: removing from an empty store fails with `UserNotFound` and
leaves the store unchanged. -/
theorem remove_embedding_error_spec_witness :
    remove_embedding (⟨[]⟩ : StoreState Nat) "bob" "face_0" =
      (Except.error (StorageError.userNotFound "bob"), (⟨[]⟩ : StoreState Nat)) ∧
    (remove_embedding (⟨[]⟩ : StoreState Nat) "bob" "face_0").2 =
      (⟨[]⟩ : StoreState Nat) := by
  have h := remove_embedding_error_spec (⟨[]⟩ : StoreState Nat) "bob" "face_0"
  refine ⟨h.1 (by decide), h.2 (StorageError.userNotFound "bob") ?_⟩
  rw [h.1 (by decide)]

/-! ## Recognizer authenticate loop (`src/nihao-core/src/lib.rs`, lines 103-369)

`authenticate` first checks `has_faces`, then loads the user's embeddings
(propagating storage errors), then runs `for frame_idx in 0..max_frames`.
Each iteration reads the wall clock (modelled by the oracle `timedOut i`,
the value of `start_time.elapsed() > timeout` at the top of iteration `i`)
and then performs capture → detect → align → embed → match, every failure of
which executes `continue`; the per-iteration outcome is modelled by the
oracle `step i`.  The store state is threaded through so that the
authenticate path's read-only use of the store is visible. -/

/-- Outcome of one frame-loop iteration of `authenticate`. -/
inductive StepOutcome where
  | badFrame
  | captureError
  | noFaces
  | detectError
  | alignError
  | embedError
  | noMatch
  | matched
deriving DecidableEq

/-- Result of `authenticate` (`Ok(true)`, `Ok(false)`, or an error). -/
inductive AuthResult where
  | ok (b : Bool)
  | errTimeout
  | errNoEnrolled
  | errStorage
deriving DecidableEq

/-- How the frame loop ended. -/
inductive LoopOutcome where
  | success
  | exhausted
  | timedOut
deriving DecidableEq

/-- The `for frame_idx in 0..max_frames` loop of `authenticate`: at the top
of each iteration the deadline is polled (`Timeout` error when exceeded);
every non-`matched` outcome falls through to the next iteration; `matched`
returns immediately.  The second component counts completed iterations. -/
def authLoop (timedOut : Nat → Bool) (step : Nat → StepOutcome) :
    Nat → Nat → LoopOutcome × Nat
  | _, 0 => (LoopOutcome.exhausted, 0)
  | idx, n + 1 =>
    if timedOut idx then (LoopOutcome.timedOut, 0)
    else
      match step idx with
      | StepOutcome.matched => (LoopOutcome.success, 1)
      | _ =>
        let r := authLoop timedOut step (idx + 1) n
        (r.1, r.2 + 1)

/-- `FaceRecognizer::authenticate`: `NoEnrolledFaces` when `has_faces` is
false or the loaded embedding list is empty, storage errors propagate, and
otherwise the result comes from the frame loop.  Returns the result, the
number of loop iterations completed, and the final store state. -/
def authenticateM (s : StoreState α) (u : String) (timedOut : Nat → Bool)
    (step : Nat → StepOutcome) (maxFrames : Nat) : (AuthResult × Nat) × StoreState α :=
  if !(has_faces s u) then ((AuthResult.errNoEnrolled, 0), s)
  else
    match load_embeddings s u with
    | Except.error _ => ((AuthResult.errStorage, 0), s)
    | Except.ok es =>
      if es.isEmpty then ((AuthResult.errNoEnrolled, 0), s)
      else
        let r := authLoop timedOut step 0 maxFrames
        ((match r.1 with
          | LoopOutcome.success => AuthResult.ok true
          | LoopOutcome.exhausted => AuthResult.ok false
          | LoopOutcome.timedOut => AuthResult.errTimeout, r.2), s)

lemma authLoop_iterations_le (t : Nat → Bool) (st : Nat → StepOutcome) :
    ∀ n idx, (authLoop t st idx n).2 ≤ n := by
  intro n
  induction n with
  | zero =>
    intro idx
    simp [authLoop]
  | succ n ih =>
    intro idx
    unfold authLoop
    cases ht : t idx with
    | true => simp
    | false =>
      simp only [Bool.false_eq_true, if_false]
      cases hstep : st idx <;> simp <;> exact ih (idx + 1)

lemma authLoop_no_match (t : Nat → Bool) (st : Nat → StepOutcome) :
    ∀ n idx,
      (∀ i, idx ≤ i → i < idx + n → t i = false ∧ st i ≠ StepOutcome.matched) →
      authLoop t st idx n = (LoopOutcome.exhausted, n) := by
  intro n
  induction n with
  | zero =>
    intro idx _
    rfl
  | succ n ih =>
    intro idx h
    obtain ⟨ht, hs⟩ := h idx le_rfl (by omega)
    have hrec := ih (idx + 1) fun i h1 h2 => h i (by omega) (by omega)
    unfold authLoop
    rw [ht]
    simp only [Bool.false_eq_true, if_false]
    cases hstep : st idx with
    | matched => exact absurd hstep hs
    | badFrame => simp [hrec]
    | captureError => simp [hrec]
    | noFaces => simp [hrec]
    | detectError => simp [hrec]
    | alignError => simp [hrec]
    | embedError => simp [hrec]
    | noMatch => simp [hrec]

lemma authenticateM_of_loaded {α : Type} (s : StoreState α) (u : String)
    (timedOut : Nat → Bool) (step : Nat → StepOutcome) (maxFrames : Nat)
    (hfaces : has_faces s u = true)
    (es : List α) (hload : load_embeddings s u = Except.ok es) (hes : es ≠ []) :
    authenticateM s u timedOut step maxFrames =
      ((match (authLoop timedOut step 0 maxFrames).1 with
        | LoopOutcome.success => AuthResult.ok true
        | LoopOutcome.exhausted => AuthResult.ok false
        | LoopOutcome.timedOut => AuthResult.errTimeout,
        (authLoop timedOut step 0 maxFrames).2), s) := by
  have hempty : es.isEmpty = false := by
    cases es with
    | nil => exact absurd rfl hes
    | cons a l => rfl
  unfold authenticateM
  rw [hfaces, hload]
  simp [hempty]

/-- C1 (amended): for a user with at least one enrolled face, the frame loop
completes at most `max_frames` iterations; and provided the wall-clock
deadline is not exceeded at the top of any iteration, every iteration —
whatever its outcome (BadFrame, capture error, NoFaces, detection, alignment
or embedding failure, below-threshold match) — consumes exactly one unit of
the budget, and when no iteration matches the call returns `Ok(false)` after
exactly `max_frames` iterations.  (If the deadline is exceeded mid-loop the
call instead returns a `Timeout` error, contrary to the unamended claim.) -/
theorem authenticate_budget_spec {α : Type} (s : StoreState α) (u : String)
    (timedOut : Nat → Bool) (step : Nat → StepOutcome) (maxFrames : Nat)
    (hfaces : has_faces s u = true)
    (es : List α) (hload : load_embeddings s u = Except.ok es) (hes : es ≠ []) :
    (authenticateM s u timedOut step maxFrames).1.2 ≤ maxFrames ∧
    ((∀ i, i < maxFrames → timedOut i = false ∧ step i ≠ StepOutcome.matched) →
      (authenticateM s u timedOut step maxFrames).1 = (AuthResult.ok false, maxFrames)) := by
  rw [authenticateM_of_loaded s u timedOut step maxFrames hfaces es hload hes]
  constructor
  · exact authLoop_iterations_le timedOut step maxFrames 0
  · intro h
    rw [authLoop_no_match timedOut step maxFrames 0 fun i h1 h2 => h i (by omega)]

/-- Store with one enrolled face for "alice" (embedding `7`). -/
def sAuth : StoreState Nat := (save_embedding ⟨[]⟩ "alice" 7 none 0).2

/-- C1, counterexample to the claim as stated: when the wall-clock deadline
is already exceeded at the first iteration, `authenticate` returns the
`Timeout` error — not `false` — even though no iteration produced a match. -/
theorem authenticate_timeout_counterexample :
    has_faces sAuth "alice" = true ∧
    (authenticateM sAuth "alice" (fun _ => true) (fun _ => StepOutcome.noMatch) 10).1 =
      (AuthResult.errTimeout, 0) ∧
    AuthResult.errTimeout ≠ AuthResult.ok false := by
  refine ⟨by decide, by decide, by decide⟩

/-- C1, witness: three all-BadFrame iterations with no timeout consume the
whole budget of 3 and the call returns `Ok(false)`. -/
theorem authenticate_budget_spec_witness :
    (authenticateM sAuth "alice" (fun _ => false) (fun _ => StepOutcome.badFrame) 3).1.2 ≤ 3 ∧
    (authenticateM sAuth "alice" (fun _ => false) (fun _ => StepOutcome.badFrame) 3).1 =
      (AuthResult.ok false, 3) := by
  have h := authenticate_budget_spec sAuth "alice" (fun _ => false)
    (fun _ => StepOutcome.badFrame) 3 (by decide) [7] (by rfl) (by decide)
  exact ⟨h.1, h.2 fun i _ => ⟨rfl, by simp⟩⟩

/-- C9: `authenticate` never mutates the face store — on every path
(missing enrollment, storage error, empty embeddings, and the whole frame
loop) the final store state equals the initial one; in this model only
`save_embedding` (used by enroll) and `remove_embedding` return a modified
state, while `list_faces`, `load_embeddings` and `has_faces` are pure reads. -/
theorem authenticate_store_readonly {α : Type} (s : StoreState α) (u : String)
    (timedOut : Nat → Bool) (step : Nat → StepOutcome) (maxFrames : Nat) :
    (authenticateM s u timedOut step maxFrames).2 = s := by
  unfold authenticateM
  split
  · rfl
  · split
    · rfl
    · split
      · rfl
      · rfl

/-! ## Password Vault (`src/nihao-core/src/password.rs`)

AES-256-GCM is modelled as an ideal AEAD: a ciphertext is the encrypted body
together with an unforgeable authentication tag that binds key, nonce, and
plaintext (confidentiality is not modelled; the body is kept as the plaintext
bytes).  Key derivation `SHA-256(machine_id ‖ "nihao-face-auth-v1")` is
modelled as an injective function of the machine id.  Passwords are byte
lists; the UTF-8 round trip of `String::from_utf8(password.as_bytes())` is
the identity and is not modelled separately. -/

/-- An AEAD ciphertext: body plus authentication tag. -/
structure CipherText where
  body : List Nat
  tag : Nat × Nat × List Nat
deriving DecidableEq

/-- Ideal AEAD encryption (`Aes256Gcm::encrypt`). -/
def aeadEncrypt (key nonce : Nat) (pt : List Nat) : CipherText :=
  ⟨pt, (key, nonce, pt)⟩

/-- Ideal AEAD decryption (`Aes256Gcm::decrypt`): fails unless the tag
matches key, nonce, and body. -/
def aeadDecrypt (key nonce : Nat) (c : CipherText) : Option (List Nat) :=
  if c.tag = (key, nonce, c.body) then some c.body else none

/-- The JSON blob persisted at `<vault_root>/<user>.key`. -/
structure EncryptedPassword where
  ciphertext : CipherText
  nonce : Nat
  version : Nat
deriving DecidableEq

/-- The vault directory: files by name. -/
structure VaultState where
  files : List (String × EncryptedPassword)
deriving DecidableEq

/-- `PasswordError` (Io/Serialization merged away; `Decryption` covers tag
failures). -/
inductive PasswordError where
  | notFound (u : String)
  | decryption
deriving DecidableEq

/-- `derive_encryption_key`: SHA-256 of the machine id plus a fixed salt,
modelled as an injective function. -/
def derive_encryption_key (machineId : Nat) : Nat :=
  machineId

/-- `store_password(user, password)`: encrypt under a fresh nonce and write
`{ciphertext, nonce, version: 1}` to `<user>.key`. -/
def store_password (vs : VaultState) (machineId nonce : Nat) (u : String)
    (password : List Nat) : VaultState :=
  let key := derive_encryption_key machineId
  ⟨setAssoc vs.files (u ++ ".key") ⟨aeadEncrypt key nonce password, nonce, 1⟩⟩

/-- `load_password(user)`: `NotFound` when the file is absent, decrypt with
the stored nonce, `Decryption` error on tag failure. -/
def load_password (vs : VaultState) (machineId : Nat) (u : String) :
    Except PasswordError (List Nat) :=
  match getAssoc vs.files (u ++ ".key") with
  | none => Except.error (PasswordError.notFound u)
  | some enc =>
    let key := derive_encryption_key machineId
    match aeadDecrypt key enc.nonce enc.ciphertext with
    | some pt => Except.ok pt
    | none => Except.error PasswordError.decryption

/-- C4: `store_password(u, p)` followed by `load_password(u)` returns `p`;
and when the stored ciphertext has been altered on disk — its body changed
with the tag kept, or its tag changed with the body kept, which covers any
single bit flip — `load_password` fails with a decryption error. -/
theorem password_roundtrip_tamper (vs : VaultState) (machineId nonce : Nat)
    (u : String) (p : List Nat) :
    load_password (store_password vs machineId nonce u p) machineId u = Except.ok p ∧
    (∀ body1, body1 ≠ p →
      load_password ⟨setAssoc vs.files (u ++ ".key")
          ⟨⟨body1, (aeadEncrypt (derive_encryption_key machineId) nonce p).tag⟩, nonce, 1⟩⟩
        machineId u = Except.error PasswordError.decryption) ∧
    (∀ tag1, tag1 ≠ (aeadEncrypt (derive_encryption_key machineId) nonce p).tag →
      load_password ⟨setAssoc vs.files (u ++ ".key") ⟨⟨p, tag1⟩, nonce, 1⟩⟩
        machineId u = Except.error PasswordError.decryption) := by
  refine ⟨?_, ?_, ?_⟩
  · unfold load_password store_password
    simp only
    rw [getAssoc_setAssoc_self]
    simp [aeadDecrypt, aeadEncrypt]
  · intro body1 hb
    unfold load_password
    rw [getAssoc_setAssoc_self]
    simp [aeadDecrypt, aeadEncrypt, Ne.symm hb]
  · intro tag1 ht
    unfold load_password
    rw [getAssoc_setAssoc_self]
    have ht' : tag1 ≠ (derive_encryption_key machineId, nonce, p) := ht
    simp [aeadDecrypt, ht']

/-- C4, witness: concrete round trip and two concrete tamperings. -/
theorem password_roundtrip_tamper_witness :
    load_password (store_password ⟨[]⟩ 1 2 "alice" [7]) 1 "alice" = Except.ok [7] ∧
    load_password ⟨setAssoc ([] : List (String × EncryptedPassword)) ("alice" ++ ".key")
        ⟨⟨[8], (aeadEncrypt (derive_encryption_key 1) 2 [7]).tag⟩, 2, 1⟩⟩
      1 "alice" = Except.error PasswordError.decryption ∧
    load_password ⟨setAssoc ([] : List (String × EncryptedPassword)) ("alice" ++ ".key")
        ⟨⟨[7], (0, 0, [])⟩, 2, 1⟩⟩
      1 "alice" = Except.error PasswordError.decryption := by
  have h := password_roundtrip_tamper ⟨[]⟩ 1 2 "alice" [7]
  exact ⟨h.1, h.2.1 [8] (by decide), h.2.2 (0, 0, []) (by decide)⟩

/-! ## Embedder normalization (`src/nihao-core/src/embed.rs`, `normalize_embedding`)

`f32` vectors are modelled over `ℝ`; the norm is `√(v·v)` and the code
divides elementwise by the norm only when it is strictly positive. -/

/-- Dot product over `ℝ` (`embedding.dot(&embedding)`). -/
noncomputable def dotR (a b : List ℝ) : ℝ :=
  (List.zipWith (· * ·) a b).sum

/-- The L2 norm computed by the code: `embedding.dot(&embedding).sqrt()`. -/
noncomputable def normR (v : List ℝ) : ℝ :=
  Real.sqrt (dotR v v)

/-- `normalize_embedding`: divide elementwise by the norm when `norm > 0.0`,
else return the vector unchanged. -/
noncomputable def normalize_embedding (v : List ℝ) : List ℝ :=
  if 0 < normR v then v.map (· / normR v) else v

lemma dotR_nil : dotR [] [] = 0 := by
  simp [dotR]

lemma dotR_cons (a b : ℝ) (l m : List ℝ) :
    dotR (a :: l) (b :: m) = a * b + dotR l m := by
  simp [dotR]

lemma dotR_self_nonneg (v : List ℝ) : 0 ≤ dotR v v := by
  induction v with
  | nil => simp [dotR_nil]
  | cons a l ih =>
    rw [dotR_cons]
    exact add_nonneg (mul_self_nonneg a) ih

lemma dotR_map_div (v : List ℝ) (n : ℝ) :
    dotR (v.map (· / n)) (v.map (· / n)) = dotR v v / (n * n) := by
  induction v with
  | nil => simp [dotR_nil]
  | cons a l ih =>
    rw [List.map_cons, dotR_cons, dotR_cons, ih, div_mul_div_comm, add_div]

lemma normR_replicate_zero (k : Nat) : normR (List.replicate k 0) = 0 := by
  have h : dotR (List.replicate k 0) (List.replicate k 0) = 0 := by
    induction k with
    | zero => simp [dotR_nil]
    | succ k ih => simp [List.replicate_succ, dotR_cons, ih]
  rw [normR, h, Real.sqrt_zero]

/-- C5: when `‖v‖₂ > 0` the normalization step returns `v/‖v‖₂`, whose L2
norm satisfies `|‖·‖₂ − 1| < 1e-5` (it is exactly 1 in exact arithmetic);
the zero vector is returned unchanged. -/
theorem normalize_embedding_spec (v : List ℝ) :
    (0 < normR v →
      normalize_embedding v = v.map (· / normR v) ∧
      |normR (normalize_embedding v) - 1| < 1e-5) ∧
    (v = List.replicate v.length 0 → normalize_embedding v = v) := by
  constructor
  · intro h
    have heq : normalize_embedding v = v.map (· / normR v) := by
      rw [normalize_embedding, if_pos h]
    refine ⟨heq, ?_⟩
    have hdpos : 0 < dotR v v := by
      have := Real.sqrt_pos.mp (by rw [← normR]; exact h)
      exact this
    have hnn : normR v * normR v = dotR v v := Real.mul_self_sqrt (dotR_self_nonneg v)
    have hone : normR (normalize_embedding v) = 1 := by
      rw [heq, normR, dotR_map_div, hnn, div_self (ne_of_gt hdpos), Real.sqrt_one]
    rw [hone]
    norm_num
  · intro h
    rw [normalize_embedding, if_neg]
    rw [show normR v = 0 from by rw [h, normR_replicate_zero]]
    exact lt_irrefl 0

/-- C5, witness: the vector `[3, 4]` has positive norm and normalizes to a
unit vector. -/
theorem normalize_embedding_spec_witness :
    0 < normR [(3 : ℝ), 4] ∧
    normalize_embedding [(3 : ℝ), 4] = [(3 : ℝ), 4].map (· / normR [(3 : ℝ), 4]) ∧
    |normR (normalize_embedding [(3 : ℝ), 4]) - 1| < 1e-5 := by
  have hpos : 0 < normR [(3 : ℝ), 4] := by
    rw [normR]
    apply Real.sqrt_pos.mpr
    norm_num [dotR_cons, dotR_nil]
  have h := (normalize_embedding_spec [(3 : ℝ), 4]).1 hpos
  exact ⟨hpos, h.1, h.2⟩

/-! ## Aligner similarity transform (`src/nihao-core/src/align.rs`,
`estimate_similarity_transform`)

The accumulation loop's sums over the five landmark correspondences are
named, and the least-squares solution is formed exactly as in the source,
over `ℚ`. -/

/-- `sum_x` of the accumulation loop. -/
def sumX (pts : Fin 5 → ℚ × ℚ) : ℚ := ∑ i, (pts i).1

/-- `sum_y` of the accumulation loop. -/
def sumY (pts : Fin 5 → ℚ × ℚ) : ℚ := ∑ i, (pts i).2

/-- `sum_xx_yy`: `Σ (x² + y²)` over the source landmarks. -/
def sumXXYY (src : Fin 5 → ℚ × ℚ) : ℚ :=
  ∑ i, ((src i).1 * (src i).1 + (src i).2 * (src i).2)

/-- `sum_ux_vy`: `Σ (u·x + v·y)`. -/
def sumUXVY (src dst : Fin 5 → ℚ × ℚ) : ℚ :=
  ∑ i, ((dst i).1 * (src i).1 + (dst i).2 * (src i).2)

/-- `sum_vx_uy`: `Σ (v·x − u·y)`. -/
def sumVXUY (src dst : Fin 5 → ℚ × ℚ) : ℚ :=
  ∑ i, ((dst i).2 * (src i).1 - (dst i).1 * (src i).2)

/-- `denom = n·Σ(x²+y²) − (Σx)² − (Σy)²` with `n = 5`. -/
def transformDenom (src : Fin 5 → ℚ × ℚ) : ℚ :=
  5 * sumXXYY src - sumX src * sumX src - sumY src * sumY src

/-- The `a` parameter of the least-squares solution. -/
def transformA (src dst : Fin 5 → ℚ × ℚ) : ℚ :=
  (5 * sumUXVY src dst - sumX dst * sumX src - sumY dst * sumY src) / transformDenom src

/-- The `b` parameter of the least-squares solution. -/
def transformB (src dst : Fin 5 → ℚ × ℚ) : ℚ :=
  (5 * sumVXUY src dst + sumX dst * sumY src - sumY dst * sumX src) / transformDenom src

/-- `estimate_similarity_transform(src, dst)`: `None` when `|denom| < 1e-6`,
else `Some [a, b, tx, ty]`. -/
def estimate_similarity_transform (src dst : Fin 5 → ℚ × ℚ) :
    Option (ℚ × ℚ × ℚ × ℚ) :=
  if |transformDenom src| < 1e-6 then none
  else
    some (transformA src dst, transformB src dst,
      (sumX dst - transformA src dst * sumX src + transformB src dst * sumY src) / 5,
      (sumY dst - transformB src dst * sumX src - transformA src dst * sumY src) / 5)

lemma estimate_self (L : Fin 5 → ℚ × ℚ) (h : ¬ |transformDenom L| < 1e-6) :
    estimate_similarity_transform L L = some (1, 0, 0, 0) := by
  have hden : transformDenom L ≠ 0 := by
    intro h0
    apply h
    rw [h0]
    norm_num
  have ha : transformA L L = 1 := by
    have hxx : sumUXVY L L = sumXXYY L := by
      unfold sumUXVY sumXXYY
      exact Finset.sum_congr rfl fun i _ => by ring
    rw [transformA, hxx, show 5 * sumXXYY L - sumX L * sumX L - sumY L * sumY L =
      transformDenom L from rfl, div_self hden]
  have hb : transformB L L = 0 := by
    have hvz : sumVXUY L L = 0 :=
      Finset.sum_eq_zero fun i _ => by ring
    rw [transformB, hvz]
    have hnum : 5 * (0 : ℚ) + sumX L * sumY L - sumY L * sumX L = 0 := by ring
    rw [hnum, zero_div]
  rw [estimate_similarity_transform, if_neg h, ha, hb]
  have htx : (sumX L - 1 * sumX L + 0 * sumY L) / 5 = (0 : ℚ) := by ring
  have hty : (sumY L - 0 * sumX L - 1 * sumY L) / 5 = (0 : ℚ) := by ring
  rw [htx, hty]

/-- C8: estimating the similarity transform from a landmark set to itself
yields parameters within 0.1 of the identity (`a = 1, b = 0, tx = 0, ty = 0`
exactly, in exact arithmetic) whenever `|denom| ≥ 1e-6`, and fails (the
transform error path) when `|denom| < 1e-6`. -/
theorem similarity_transform_spec (L : Fin 5 → ℚ × ℚ) :
    (1e-6 ≤ |transformDenom L| →
      estimate_similarity_transform L L = some (1, 0, 0, 0) ∧
      ∀ a b tx ty, estimate_similarity_transform L L = some (a, b, tx, ty) →
        |a - 1| < 1/10 ∧ |b| < 1/10 ∧ |tx| < 1/10 ∧ |ty| < 1/10) ∧
    (|transformDenom L| < 1e-6 → estimate_similarity_transform L L = none) := by
  constructor
  · intro h
    have h' : ¬ |transformDenom L| < 1e-6 := not_lt.mpr h
    refine ⟨estimate_self L h', ?_⟩
    intro a b tx ty hsome
    rw [estimate_self L h'] at hsome
    obtain ⟨ha, hb, htx, hty⟩ : a = 1 ∧ b = 0 ∧ tx = 0 ∧ ty = 0 := by
      have := Option.some.inj hsome
      refine ⟨(congrArg (fun p => p.1) this).symm, (congrArg (fun p => p.2.1) this).symm,
        (congrArg (fun p => p.2.2.1) this).symm, (congrArg (fun p => p.2.2.2) this).symm⟩
    subst ha hb htx hty
    norm_num
  · intro h
    rw [estimate_similarity_transform, if_pos h]

/-- A concrete landmark set whose least-squares denominator is large. -/
def landmarkWitness : Fin 5 → ℚ × ℚ
  | 0 => (0, 0)
  | 1 => (1, 0)
  | 2 => (2, 0)
  | 3 => (3, 0)
  | 4 => (4, 1)

/-- C8, witness: the theorem applied to a concrete landmark set with
`denom = 54 ≥ 1e-6`. -/
theorem similarity_transform_spec_witness :
    1e-6 ≤ |transformDenom landmarkWitness| ∧
    estimate_similarity_transform landmarkWitness landmarkWitness = some (1, 0, 0, 0) := by
  have hden : transformDenom landmarkWitness = 54 := by
    norm_num [transformDenom, sumXXYY, sumX, sumY, Fin.sum_univ_five, landmarkWitness]
  have h : (1e-6 : ℚ) ≤ |transformDenom landmarkWitness| := by
    rw [hden]
    norm_num
  exact ⟨h, ((similarity_transform_spec landmarkWitness).1 h).1⟩

/-! ## Camera quality gating (`src/nihao-core/src/capture.rs`, lines 97-225)

A decoded frame is a list of RGB8 pixels.  `capture_frame(check_quality)`
runs, after decoding, the darkness test (`analyze_frame_darkness`) and then
the overexposure test (`is_overexposed`); percentages (`f32`) are modelled
over `ℚ`.  For a luma value `g ≤ 255`, the histogram bin
`min(floor(g/32), 7)` computed in `f32` equals the integer division
`min (g / 32) 7` exactly. -/

/-- One decoded RGB8 pixel. -/
structure Pixel where
  r : Nat
  g : Nat
  b : Nat
deriving DecidableEq

/-- The grayscale value: integer mean of the three channels
(`(r + g + b) / 3` in `u16`, cast back to `u8`). -/
def gray (p : Pixel) : Nat :=
  (p.r + p.g + p.b) / 3

/-- The 8-bin histogram bin of a luma value: `min(floor(g / 32), 7)`. -/
def lumaBin (g : Nat) : Nat :=
  min (g / 32) 7

/-- Fraction (percent) of pixels in the darkest histogram bin. -/
def darkFraction (img : List Pixel) : ℚ :=
  ((img.filter fun p => lumaBin (gray p) = 0).length : ℚ) / (img.length : ℚ) * 100

/-- Fraction (percent) of pixels whose mean channel value exceeds 240. -/
def brightFraction (img : List Pixel) : ℚ :=
  ((img.filter fun p => 240 < (p.r + p.g + p.b) / 3).length : ℚ) / (img.length : ℚ) * 100

/-- `analyze_frame_darkness`: 100% with rejection when every pixel is black
(`black_pixels == total_pixels`), else the darkest-bin percentage with
rejection when it exceeds `dark_threshold`. -/
def analyze_frame_darkness (img : List Pixel) (dark_threshold : ℚ) : ℚ × Bool :=
  if (img.filter fun p => gray p = 0).length = img.length then (100, true)
  else (darkFraction img, decide (darkFraction img > dark_threshold))

/-- `is_overexposed`: the blown-out percentage with rejection when it
exceeds 15%. -/
def is_overexposed (img : List Pixel) : ℚ × Bool :=
  (brightFraction img, decide (brightFraction img > 15))

/-- The distinguished `BadFrame` reasons produced by the two quality tests. -/
inductive BadFrameReason where
  | tooDark (pct threshold : ℚ)
  | overexposed (pct : ℚ)
deriving DecidableEq

/-- Result of the quality-check portion of `capture_frame`. -/
inductive CaptureResult where
  | badFrame (reason : BadFrameReason)
  | frame (img : List Pixel)
deriving DecidableEq

/-- The quality-check portion of `capture_frame(check_quality)`: darkness
test first, then overexposure test, else the decoded frame is returned. -/
def capture_quality_check (img : List Pixel) (check_quality : Bool)
    (dark_threshold : ℚ) : CaptureResult :=
  if check_quality then
    if (analyze_frame_darkness img dark_threshold).2 then
      CaptureResult.badFrame
        (BadFrameReason.tooDark (analyze_frame_darkness img dark_threshold).1 dark_threshold)
    else if (is_overexposed img).2 then
      CaptureResult.badFrame (BadFrameReason.overexposed (is_overexposed img).1)
    else CaptureResult.frame img
  else CaptureResult.frame img

/-- "Every pixel has luma 0" — the black-frame condition. -/
def allBlack (img : List Pixel) : Prop :=
  ∀ p ∈ img, gray p = 0

lemma allBlack_iff_filter (img : List Pixel) :
    (img.filter fun p => gray p = 0).length = img.length ↔ allBlack img := by
  rw [List.filter_length_eq_length]
  simp [allBlack]

/-- C7: with `check_quality = true`, a decoded frame yields a `BadFrame`
error iff every pixel has luma 0, or the darkest-bin fraction exceeds
`dark_threshold` percent, or the bright-pixel fraction exceeds 15%; the
darkness test runs first (an all-black or too-dark frame reports the
darkness reason), and a frame passing all three checks is returned. -/
theorem capture_quality_spec (img : List Pixel) (thr : ℚ) :
    ((∃ rsn, capture_quality_check img true thr = CaptureResult.badFrame rsn) ↔
      allBlack img ∨ darkFraction img > thr ∨ brightFraction img > 15) ∧
    (allBlack img ∨ darkFraction img > thr →
      ∃ pct, capture_quality_check img true thr =
        CaptureResult.badFrame (BadFrameReason.tooDark pct thr)) ∧
    (¬ allBlack img ∧ ¬ darkFraction img > thr ∧ ¬ brightFraction img > 15 →
      capture_quality_check img true thr = CaptureResult.frame img) := by
  by_cases hA : allBlack img
  · have hA' : (img.filter fun p => gray p = 0).length = img.length :=
      (allBlack_iff_filter img).mpr hA
    have hcap : capture_quality_check img true thr =
        CaptureResult.badFrame (BadFrameReason.tooDark 100 thr) := by
      unfold capture_quality_check analyze_frame_darkness
      rw [if_pos hA']
      simp
    refine ⟨⟨fun _ => Or.inl hA, fun _ => ⟨_, hcap⟩⟩, fun _ => ⟨100, hcap⟩, ?_⟩
    rintro ⟨hA2, _, _⟩
    exact absurd hA hA2
  · have hA' : ¬ (img.filter fun p => gray p = 0).length = img.length :=
      fun hc => hA ((allBlack_iff_filter img).mp hc)
    have han : analyze_frame_darkness img thr =
        (darkFraction img, decide (darkFraction img > thr)) := by
      unfold analyze_frame_darkness
      rw [if_neg hA']
    by_cases hB : darkFraction img > thr
    · have hcap : capture_quality_check img true thr =
          CaptureResult.badFrame (BadFrameReason.tooDark (darkFraction img) thr) := by
        unfold capture_quality_check
        rw [han]
        simp [hB]
      refine ⟨⟨fun _ => Or.inr (Or.inl hB), fun _ => ⟨_, hcap⟩⟩,
        fun _ => ⟨darkFraction img, hcap⟩, ?_⟩
      rintro ⟨_, hB2, _⟩
      exact absurd hB hB2
    · by_cases hC : brightFraction img > 15
      · have hcap : capture_quality_check img true thr =
            CaptureResult.badFrame (BadFrameReason.overexposed (brightFraction img)) := by
          unfold capture_quality_check is_overexposed
          rw [han]
          simp [hB, hC]
        refine ⟨⟨fun _ => Or.inr (Or.inr hC), fun _ => ⟨_, hcap⟩⟩, ?_, ?_⟩
        · rintro (hA2 | hB2)
          · exact absurd hA2 hA
          · exact absurd hB2 hB
        · rintro ⟨_, _, hC2⟩
          exact absurd hC hC2
      · have hcap : capture_quality_check img true thr = CaptureResult.frame img := by
          unfold capture_quality_check is_overexposed
          rw [han]
          simp [hB, hC]
        refine ⟨⟨?_, ?_⟩, ?_, fun _ => hcap⟩
        · rintro ⟨rsn, hr⟩
          rw [hcap] at hr
          exact CaptureResult.noConfusion hr
        · rintro (h | h | h)
          · exact absurd h hA
          · exact absurd h hB
          · exact absurd h hC
        · rintro (hA2 | hB2)
          · exact absurd hA2 hA
          · exact absurd hB2 hB

/-- C7, witness: a uniformly mid-gray 2-pixel frame passes both tests and
is accepted; the theorem applied at that frame. -/
theorem capture_quality_spec_witness :
    (¬ allBlack [⟨128, 128, 128⟩, ⟨128, 128, 128⟩] ∧
      ¬ darkFraction [⟨128, 128, 128⟩, ⟨128, 128, 128⟩] > 80 ∧
      ¬ brightFraction [⟨128, 128, 128⟩, ⟨128, 128, 128⟩] > 15) ∧
    capture_quality_check [⟨128, 128, 128⟩, ⟨128, 128, 128⟩] true 80 =
      CaptureResult.frame [⟨128, 128, 128⟩, ⟨128, 128, 128⟩] := by
  have hconds : ¬ allBlack [⟨128, 128, 128⟩, ⟨128, 128, 128⟩] ∧
      ¬ darkFraction [⟨128, 128, 128⟩, ⟨128, 128, 128⟩] > 80 ∧
      ¬ brightFraction [⟨128, 128, 128⟩, ⟨128, 128, 128⟩] > 15 := by
    refine ⟨?_, ?_, ?_⟩
    · intro h
      have := h ⟨128, 128, 128⟩ (List.mem_cons_self _ _)
      simp [gray] at this
    · norm_num [darkFraction, List.filter, lumaBin, gray]
    · norm_num [brightFraction, List.filter, gray]
  exact ⟨hconds, (capture_quality_spec [⟨128, 128, 128⟩, ⟨128, 128, 128⟩] 80).2.2 hconds⟩

/-! ## Detector post-processing (`src/nihao-core/src/detect.rs`)

`detect` collects threshold-surviving candidates during anchor decoding; the
claims concern what follows (lines 262-281): the `NoFaces` check on the
empty candidate list, NMS at IoU threshold 0.4 (`nms`, lines 365-400), and
the final sort by `confidence · √area` descending.  Box geometry (`f32`) is
modelled over `ℚ`; the sort key needs `√`, so it lives in `ℝ` and the final
sort is a classical (noncomputable) stable sort with the same comparator. -/

/-- A detection bounding box `(x, y, w, h)`. -/
structure BBox where
  x : ℚ
  y : ℚ
  width : ℚ
  height : ℚ
deriving DecidableEq

/-- `BoundingBox::area`. -/
def BBox.area (b : BBox) : ℚ :=
  b.width * b.height

/-- `BoundingBox::iou`: Jaccard overlap, 0 when the union is not positive. -/
def BBox.iou (b other : BBox) : ℚ :=
  let x1 := max b.x other.x
  let y1 := max b.y other.y
  let x2 := min (b.x + b.width) (other.x + other.width)
  let y2 := min (b.y + b.height) (other.y + other.height)
  let intersection := max (x2 - x1) 0 * max (y2 - y1) 0
  let union := b.area + other.area - intersection
  if union > 0 then intersection / union else 0

/-- The five facial landmarks of a detection. -/
structure FacialLandmarks where
  left_eye : ℚ × ℚ
  right_eye : ℚ × ℚ
  nose : ℚ × ℚ
  left_mouth : ℚ × ℚ
  right_mouth : ℚ × ℚ
deriving DecidableEq

/-- One detected face. -/
structure DetectedFace where
  bbox : BBox
  landmarks : FacialLandmarks
  confidence : ℚ
deriving DecidableEq

lemma BBox.iou_comm (a b : BBox) : a.iou b = b.iou a := by
  unfold BBox.iou
  rw [max_comm a.x b.x, max_comm a.y b.y, min_comm (a.x + a.width) (b.x + b.width),
    min_comm (a.y + a.height) (b.y + b.height), add_comm a.area b.area]

/-- Descending-confidence comparator of the sort inside `nms`. -/
def confGE (a b : DetectedFace) : Prop :=
  b.confidence ≤ a.confidence

instance : DecidableRel confGE :=
  fun a b => inferInstanceAs (Decidable (b.confidence ≤ a.confidence))

instance : IsTotal DetectedFace confGE :=
  ⟨fun a b => le_total b.confidence a.confidence⟩

instance : IsTrans DetectedFace confGE :=
  ⟨fun _ _ _ h1 h2 => le_trans h2 h1⟩

/-- The greedy pass of `nms` over confidence-sorted candidates: accept the
head, suppress every later candidate whose IoU with it exceeds the
threshold, recurse on the survivors. -/
def nmsGreedy : List DetectedFace → ℚ → List DetectedFace
  | [], _ => []
  | f :: rest, thr =>
    f :: nmsGreedy (rest.filter fun g => f.bbox.iou g.bbox ≤ thr) thr
  termination_by l _ => l.length
  decreasing_by
    simp only [List.length_cons]
    exact Nat.lt_succ_of_le (List.length_filter_le _ _)

/-- `FaceDetector::nms`: sort by descending confidence, then greedily accept
and suppress. -/
def nms (detections : List DetectedFace) (iou_threshold : ℚ) : List DetectedFace :=
  nmsGreedy (detections.insertionSort confGE) iou_threshold

/-- The final sort key of `detect`: `confidence · √area`. -/
noncomputable def detectSortKey (f : DetectedFace) : ℝ :=
  (f.confidence : ℝ) * Real.sqrt (f.bbox.area : ℝ)

/-- Descending-`confidence · √area` comparator of `detect`'s final sort. -/
def scoreGE (a b : DetectedFace) : Prop :=
  detectSortKey b ≤ detectSortKey a

noncomputable instance : DecidableRel scoreGE :=
  fun _ _ => Classical.propDecidable _

instance : IsTotal DetectedFace scoreGE :=
  ⟨fun a b => le_total (detectSortKey b) (detectSortKey a)⟩

instance : IsTrans DetectedFace scoreGE :=
  ⟨fun _ _ _ h1 h2 => le_trans h2 h1⟩

/-- `detect`'s final re-sort of the NMS survivors. -/
noncomputable def sortByScore (l : List DetectedFace) : List DetectedFace :=
  l.insertionSort scoreGE

/-- `DetectionError::NoFaces` (the only detection error the claims need). -/
inductive DetectionError where
  | noFaces
deriving DecidableEq

/-- The post-decoding tail of `detect` (lines 262-281): `NoFaces` when no
candidate survived thresholding, else NMS at 0.4 and the final sort. -/
noncomputable def detect_post (detections : List DetectedFace) :
    Except DetectionError (List DetectedFace) :=
  if detections.isEmpty then Except.error DetectionError.noFaces
  else Except.ok (sortByScore (nms detections 0.4))

lemma nmsGreedy_subset (l : List DetectedFace) (thr : ℚ) :
    ∀ f ∈ nmsGreedy l thr, f ∈ l := by
  induction l, thr using nmsGreedy.induct with
  | case1 thr => simp [nmsGreedy]
  | case2 f rest thr ih =>
    intro x hx
    rw [nmsGreedy] at hx
    rcases List.mem_cons.mp hx with h | h
    · simp [h]
    · exact List.mem_cons_of_mem f (List.mem_of_mem_filter (ih x h))

lemma nmsGreedy_pairwise (l : List DetectedFace) (thr : ℚ) :
    (nmsGreedy l thr).Pairwise fun a b => a.bbox.iou b.bbox ≤ thr := by
  induction l, thr using nmsGreedy.induct with
  | case1 thr => simp [nmsGreedy]
  | case2 f rest thr ih =>
    rw [nmsGreedy]
    refine List.Pairwise.cons ?_ ih
    intro g hg
    have hmem := nmsGreedy_subset _ thr g hg
    have := List.of_mem_filter hmem
    simpa using this

lemma nmsGreedy_ne_nil (f : DetectedFace) (rest : List DetectedFace) (thr : ℚ) :
    nmsGreedy (f :: rest) thr ≠ [] := by
  rw [nmsGreedy]
  exact List.cons_ne_nil _ _

lemma nms_ne_nil (detections : List DetectedFace) (thr : ℚ)
    (h : detections ≠ []) : nms detections thr ≠ [] := by
  unfold nms
  have hlen : (detections.insertionSort confGE).length = detections.length :=
    List.length_insertionSort confGE detections
  rcases hs : detections.insertionSort confGE with _ | ⟨f, rest⟩
  · exfalso
    rw [hs] at hlen
    exact h (List.eq_nil_of_length_eq_zero hlen.symm)
  · exact nmsGreedy_ne_nil f rest thr

lemma sortByScore_perm (l : List DetectedFace) : (sortByScore l).Perm l :=
  List.perm_insertionSort scoreGE l

/-- C6: for every candidate list, `detect`'s post-processing fails with
`NoFaces` exactly when no candidate survived thresholding; otherwise it
returns the NMS survivors re-sorted by descending `confidence · √area`, a
non-empty list in which no two faces have bounding-box IoU exceeding 0.4
(NMS greedily accepts in descending-confidence order, suppressing later
candidates with IoU > 0.4 against an accepted one). -/
theorem detect_post_spec (detections : List DetectedFace) :
    (detect_post detections = Except.error DetectionError.noFaces ↔ detections = []) ∧
    (detections ≠ [] →
      detect_post detections = Except.ok (sortByScore (nms detections 0.4)) ∧
      sortByScore (nms detections 0.4) ≠ [] ∧
      (sortByScore (nms detections 0.4)).Pairwise
        (fun a b => a.bbox.iou b.bbox ≤ 0.4) ∧
      (sortByScore (nms detections 0.4)).Sorted scoreGE) := by
  constructor
  · unfold detect_post
    rcases h : detections.isEmpty with _ | _
    · simp only [Bool.false_eq_true, if_false]
      constructor
      · intro hc
        exact Except.noConfusion hc
      · intro hc
        rw [hc] at h
        exact Bool.noConfusion h
    · simp only [if_true]
      constructor
      · intro _
        exact List.isEmpty_iff.mp h
      · intro _
        trivial
  · intro h
    have hempty : detections.isEmpty = false := by
      rcases hi : detections.isEmpty with _ | _
      · rfl
      · exact absurd (List.isEmpty_iff.mp hi) h
    refine ⟨?_, ?_, ?_, ?_⟩
    · unfold detect_post
      rw [hempty]
      rfl
    · intro hc
      have hperm := sortByScore_perm (nms detections 0.4)
      have := hperm.length_eq
      rw [hc] at this
      exact nms_ne_nil detections 0.4 h (List.eq_nil_of_length_eq_zero this.symm)
    · have hpw := nmsGreedy_pairwise (detections.insertionSort confGE) 0.4
      have hsymm : Symmetric fun a b : DetectedFace => a.bbox.iou b.bbox ≤ (0.4 : ℚ) := by
        intro a b hab
        rw [BBox.iou_comm]
        exact hab
      exact ((sortByScore_perm (nms detections 0.4)).pairwise_iff
        fun hab => hsymm hab).mpr hpw
    · exact List.sorted_insertionSort scoreGE (nms detections 0.4)

/-- A concrete detected face for the witness. -/
def faceW (x y w h conf : ℚ) : DetectedFace :=
  ⟨⟨x, y, w, h⟩, ⟨(0, 0), (0, 0), (0, 0), (0, 0), (0, 0)⟩, conf⟩

/-- C6, witness: the theorem applied to a one-candidate list. -/
theorem detect_post_spec_witness :
    detect_post [faceW 0 0 10 10 (9/10)] =
      Except.ok (sortByScore (nms [faceW 0 0 10 10 (9/10)] 0.4)) ∧
    sortByScore (nms [faceW 0 0 10 10 (9/10)] 0.4) ≠ [] ∧
    (sortByScore (nms [faceW 0 0 10 10 (9/10)] 0.4)).Sorted scoreGE := by
  have h := (detect_post_spec [faceW 0 0 10 10 (9/10)]).2 (List.cons_ne_nil _ _)
  exact ⟨h.1, h.2.1, h.2.2.2⟩

end Nihao
